import Mathlib

/-!
Shallow embedding of `capa/capabilities/common.py` (the capability
resolution pipeline of the capa project) together with proofs about the
claims of its specification.

Modelling conventions:

* A Python `dict` is modelled as an association list with unique keys,
  kept in insertion order (Python dicts preserve insertion order).
  `dictLookup`, `dictSet`, `dictUpdate` mirror `d[k]`, `d[k] = v` and
  `d.update(e)`.
* A Python `set[Address]` is a `Finset Addr`.
* `FeatureSet = dict[Feature, set[Address]]` (from `capa.engine`) becomes
  an association list `List (F × Finset Addr)`; the feature type is kept
  as a type parameter `F` with decidable equality (features are opaque,
  hashable-and-equality-comparable values).
* Addresses (`capa.features.address`) are either the `NO_ADDRESS`
  sentinel or an integer virtual address.  Python truthiness of an
  address (`if va:` in the source) is modelled by `Addr.truthy`:
  an integer address is truthy iff it is non-zero (Python `int`
  truthiness), and the sentinel is falsy.
* `MatchResults = dict[str, list[tuple[Address, Result]]]` becomes a list
  of pairs of rule name and match locations; the opaque per-match
  `Result` detail, produced by the external rule engine, is elided since
  this module only ever inspects the rule-name keys.
* Raised exceptions become `Except`; logging becomes an explicit list of
  emitted lines; the heap state of an object that a function receives is
  threaded explicitly, so the returned state shows what mutation (if
  any) the function performed on it.
-/

namespace Capa

/-- Addresses from `capa.features.address`: either the `NO_ADDRESS`
sentinel or an integer virtual address.
Modelled from the spec: `capa/features/address.py` is not part of the
analysed source; the spec says a sentinel "no location" value exists and
is treated as an absent location by the aggregator, so `noAddr` is falsy.
An integer virtual address follows Python `int` truthiness: `0` is falsy. -/
inductive Addr where
  | noAddr : Addr
  | va : Nat → Addr
deriving DecidableEq

/-- Python truthiness of an address value, as tested by `if va:` in
`find_file_capabilities`. -/
def Addr.truthy : Addr → Bool
  | .noAddr => false
  | .va n => n != 0

variable {F : Type} [DecidableEq F]

/-- The `FeatureSet` type of `capa.engine`: `dict[Feature, set[Address]]`,
modelled as an insertion-ordered association list with unique keys. -/
abbrev FeatureSet (F : Type) : Type := List (F × Finset Addr)

/-- Dictionary lookup `d.get(k)` / `k in d`. -/
def dictLookup : FeatureSet F → F → Option (Finset Addr)
  | [], _ => none
  | p :: rest, k => if p.1 = k then some p.2 else dictLookup rest k

/-- Dictionary store `d[k] = v`: replaces the value in place when the key
exists, otherwise appends the new key at the end (Python insertion order). -/
def dictSet : FeatureSet F → F → Finset Addr → FeatureSet F
  | [], k, v => [(k, v)]
  | p :: rest, k, v => if p.1 = k then (k, v) :: rest else p :: dictSet rest k v

/-- The keys of the dictionary, in order. -/
def dictKeys (d : FeatureSet F) : List F := d.map Prod.fst

/-- The statement `file_features[feature].add(va)` on a
`defaultdict(set)`: fetch the feature's current location set (empty if
the key is new) and add the address to it. -/
def addLoc (d : FeatureSet F) (k : F) (a : Addr) : FeatureSet F :=
  dictSet d k (insert a ((dictLookup d k).getD ∅))

/-- The statement `if feature not in file_features: file_features[feature] = set()`:
ensure the feature shows up in the index with an empty address set,
without disturbing an existing entry. -/
def ensureKey (d : FeatureSet F) (k : F) : FeatureSet F :=
  match dictLookup d k with
  | some _ => d
  | none => dictSet d k ∅

/-- The body of the `for feature, va in itertools.chain(...)` loop of
`find_file_capabilities`: `if va: file_features[feature].add(va) else: ...`. -/
def streamStep (d : FeatureSet F) (p : F × Addr) : FeatureSet F :=
  if p.2.truthy then addLoc d p.1 p.2 else ensureKey d p.1

/-- Consuming a stream of `(feature, va)` pairs: the whole `for` loop of
`find_file_capabilities`. -/
def consume (d : FeatureSet F) (s : List (F × Addr)) : FeatureSet F :=
  s.foldl streamStep d

/-- Python `d.update(e)`: for each key of `e` in order, store its value
into `d`, replacing the value of a key already present. -/
def dictUpdate (d e : FeatureSet F) : FeatureSet F :=
  e.foldl (fun acc p => dictSet acc p.1 p.2) d

/-- Rule scopes (only the file scope is exercised by this module). -/
inductive Scope where
  | FILE : Scope
  | FUNCTION : Scope
deriving DecidableEq

/-- Match results, `MatchResults = dict[str, list[tuple[Address, Result]]]`:
rule name to list of match locations (the opaque engine `Result` detail
for each match is elided; only the keys are inspected here). -/
abbrev MatchResults : Type := List (String × List Addr)

/-- The rule-name keys of a `MatchResults` value: `name in matches`. -/
def matchKeys (m : MatchResults) : List String := m.map Prod.fst

/-- The `FileCapabilities` dataclass.  The `matches` field of the source is
called `rule_matches` here because `matches` is a Lean keyword. -/
structure FileCapabilities (F : Type) where
  features : FeatureSet F
  rule_matches : MatchResults
  feature_count : Nat
deriving DecidableEq

/-- The evidence index built inside `find_file_capabilities`: consume the
chained file-scope and global-scope streams into a fresh
`defaultdict(set)` and then run `file_features.update(function_features)`. -/
def file_feature_index (ex_file ex_global : List (F × Addr))
    (function_features : FeatureSet F) : FeatureSet F :=
  dictUpdate (consume [] (ex_file ++ ex_global)) function_features

/-- The function `find_file_capabilities(ruleset, extractor, function_features)`.
The external collaborators are explicit arguments: `matchFn` stands for
`ruleset.match` (scope, evidence index, anchor address), and the two
extraction streams stand for the sequences produced by
`extractor.extract_file_features()` and `extractor.extract_global_features()`. -/
def find_file_capabilities
    (matchFn : Scope → FeatureSet F → Addr → FeatureSet F × MatchResults)
    (ex_file ex_global : List (F × Addr))
    (function_features : FeatureSet F) : FileCapabilities F :=
  let file_features := file_feature_index ex_file ex_global function_features
  let fm := matchFn Scope.FILE file_features Addr.noAddr
  { features := fm.1, rule_matches := fm.2, feature_count := file_features.length }

/-- An extractor whose extraction calls may raise: each call either
returns its finite stream or raises an error of type `E`. -/
structure FileExtractor (F E : Type) where
  extract_file_features : Except E (List (F × Addr))
  extract_global_features : Except E (List (F × Addr))

/-- The function `find_file_capabilities` with the extraction calls' exception
behaviour made explicit: the source has no `try`/`except`, so an error
raised by either extraction call propagates unchanged and no
`FileCapabilities` value is constructed. -/
def find_file_capabilities_exc {E : Type}
    (matchFn : Scope → FeatureSet F → Addr → FeatureSet F × MatchResults)
    (extractor : FileExtractor F E)
    (function_features : FeatureSet F) : Except E (FileCapabilities F) :=
  match extractor.extract_file_features with
  | .error e => .error e
  | .ok fileS =>
    match extractor.extract_global_features with
    | .error e => .error e
    | .ok globalS => .ok (find_file_capabilities matchFn fileS globalS function_features)

/-- Errors that `find_capabilities` can raise.  The source raises
`ValueError(f"unexpected extractor type: {extractor.__class__.__name__}")`
when the extractor is neither static nor dynamic — the error the spec
names `UnsupportedExtractorKind` — and an `assert` failure when it is
both. -/
inductive DispatchError where
  | unsupportedExtractorKind : String → DispatchError
  | assertionFailure : DispatchError
deriving DecidableEq

/-- What `find_capabilities` observes about its extractor argument:
the two `isinstance` checks (`StaticFeatureExtractor`,
`DynamicFeatureExtractor`) and the class name used in the error message. -/
structure ExtractorTag where
  isStatic : Bool
  isDynamic : Bool
  className : String
deriving DecidableEq

/-- The function `find_capabilities(ruleset, extractor, ...)`.  The external
strategies `find_static_capabilities` and `find_dynamic_capabilities`
(opaque collaborators, applied with the same ruleset/extractor/options)
are passed as the values they would return. -/
def find_capabilities {C : Type}
    (find_static_capabilities find_dynamic_capabilities : C)
    (extractor : ExtractorTag) : Except DispatchError C :=
  if extractor.isStatic then
    -- `assert not isinstance(extractor, DynamicFeatureExtractor)`
    if extractor.isDynamic then .error .assertionFailure
    else .ok find_static_capabilities
  else if extractor.isDynamic then .ok find_dynamic_capabilities
  else .error (.unsupportedExtractorKind extractor.className)

/-- A capa rule as inspected by this module: its name and its free-form
`meta` mapping (string keys to string values; the `namespace` and
`description` entries are the ones read here). -/
structure Rule where
  name : String
  meta : List (String × String)
deriving DecidableEq

/-- Python `meta.get(key, default)` over the modelled `meta` dictionary. -/
def metaGet : List (String × String) → String → String → String
  | [], _, d => d
  | p :: rest, k, d => if p.1 = k then p.2 else metaGet rest k d

/-- The predicate `is_static_limitation_rule(r)`:
`r.meta.get("namespace", "") == "internal/limitation/static"`. -/
def is_static_limitation_rule (r : Rule) : Bool :=
  metaGet r.meta "namespace" "" == "internal/limitation/static"

/-- The predicate `is_dynamic_limitation_rule(r)`:
`r.meta.get("namespace", "") == "internal/limitation/dynamic"`. -/
def is_dynamic_limitation_rule (r : Rule) : Bool :=
  metaGet r.meta "namespace" "" == "internal/limitation/dynamic"

/-- The log lines `has_limitation` emits through `logger.warning` when it
surfaces a limitation rule: a dashed separator, the rule's description
split on newlines, the identifying rule name, the standalone-only hint,
and a closing separator. -/
def logLines (r : Rule) (is_standalone : Bool) : List String :=
  let dashes := String.mk (List.replicate 80 '-')
  [dashes]
    ++ ((metaGet r.meta "description" "").splitOn "\n").map (fun line => " " ++ line)
    ++ [" Identified via rule: " ++ r.name]
    ++ (if is_standalone then
          [" ", " Use -v or -vv if you really want to see the capabilities identified by capa."]
        else [])
    ++ [dashes]

/-- The outcome of the limitation gate: the returned boolean, the warning
lines the call logged, and the state of the capabilities object after the
call (threaded explicitly, so that the absence of mutation is visible). -/
structure GateResult (ρ : Type) where
  found : Bool
  logs : List String
  capabilities : ρ
deriving DecidableEq

/-- The function `has_limitation(rules, capabilities, is_standalone)`.  The
capabilities argument is duck-typed in the source
(`Capabilities | FileCapabilities`); here it is any type `ρ` together
with the accessor `getMatches` for its `matches` field.  The loop scans
the rules in order, skips rules whose name is not among the match keys,
and on the first hit logs the warning block and returns `True`
("bail on first file limitation"). -/
def has_limitation {ρ : Type} (getMatches : ρ → MatchResults) :
    List Rule → ρ → Bool → GateResult ρ
  | [], capabilities, _ => ⟨false, [], capabilities⟩
  | r :: rest, capabilities, is_standalone =>
    if r.name ∈ matchKeys (getMatches capabilities) then
      ⟨true, logLines r is_standalone, capabilities⟩
    else has_limitation getMatches rest capabilities is_standalone

/-- The function `has_static_limitation(rules, capabilities, is_standalone)`:
filter the rule set's rules (in iteration order) through
`is_static_limitation_rule` and delegate to `has_limitation`.
`ruleValues` stands for `rules.rules.values()` in iteration order. -/
def has_static_limitation {ρ : Type} (getMatches : ρ → MatchResults)
    (ruleValues : List Rule) (capabilities : ρ) (is_standalone : Bool) : GateResult ρ :=
  has_limitation getMatches (ruleValues.filter is_static_limitation_rule)
    capabilities is_standalone

/-- The function `has_dynamic_limitation(rules, capabilities, is_standalone)`:
filter through `is_dynamic_limitation_rule` and delegate to `has_limitation`. -/
def has_dynamic_limitation {ρ : Type} (getMatches : ρ → MatchResults)
    (ruleValues : List Rule) (capabilities : ρ) (is_standalone : Bool) : GateResult ρ :=
  has_limitation getMatches (ruleValues.filter is_dynamic_limitation_rule)
    capabilities is_standalone

/-- The `Capabilities` dataclass (`matches` renamed as in
`FileCapabilities`; the `StaticFeatureCounts | DynamicFeatureCounts`
summary is abstracted to a type parameter since it is opaque here, and a
`LibraryFunction` is its (address, name) pair). -/
structure Capabilities (FC : Type) where
  rule_matches : MatchResults
  feature_counts : FC
  library_functions : Option (List (Addr × String)) := none

/-! Lemmas about the dictionary operations. -/

/-- The set of truthy addresses a stream supplies for a given feature. -/
def truthyLocs (s : List (F × Addr)) (k : F) : Finset Addr :=
  ((s.filter (fun p => decide (p.1 = k) && p.2.truthy)).map Prod.snd).toFinset

theorem dictLookup_dictSet (d : FeatureSet F) (k : F) (v : Finset Addr) (k' : F) :
    dictLookup (dictSet d k v) k' = if k = k' then some v else dictLookup d k' := by
  induction d with
  | nil => simp [dictSet, dictLookup]
  | cons p rest ih =>
    by_cases h : p.1 = k
    · by_cases h' : k = k' <;> simp [dictSet, dictLookup, h, h']
    · by_cases h' : k = k'
      · subst h'
        simp [dictSet, dictLookup, h, ih]
      · simp [dictSet, dictLookup, h, h', ih]

theorem dictKeys_dictSet (d : FeatureSet F) (k : F) (v : Finset Addr) :
    dictKeys (dictSet d k v) =
      if k ∈ dictKeys d then dictKeys d else dictKeys d ++ [k] := by
  induction d with
  | nil => simp [dictSet, dictKeys]
  | cons p rest ih =>
    by_cases h : p.1 = k
    · simp [dictSet, dictKeys, h]
    · have h' : ¬ (k = p.1) := fun hh => h hh.symm
      have hset : dictSet (p :: rest) k v = p :: dictSet rest k v := by
        simp [dictSet, h]
      have hcons : dictKeys (p :: dictSet rest k v) = p.1 :: dictKeys (dictSet rest k v) := rfl
      have hcons2 : dictKeys (p :: rest) = p.1 :: dictKeys rest := rfl
      rw [hset, hcons, hcons2, ih]
      by_cases hm : k ∈ dictKeys rest
      · simp [hm, h']
      · simp [hm, h']

theorem dictKeys_dictSet_mem (d : FeatureSet F) (k : F) (v : Finset Addr) (k' : F) :
    k' ∈ dictKeys (dictSet d k v) ↔ k' ∈ dictKeys d ∨ k' = k := by
  rw [dictKeys_dictSet]
  by_cases hm : k ∈ dictKeys d
  · simp only [hm, if_true]
    constructor
    · exact fun h => Or.inl h
    · rintro (h | rfl) <;> [exact h; exact hm]
  · simp [hm]

theorem dictKeys_nodup_dictSet (d : FeatureSet F) (k : F) (v : Finset Addr)
    (h : (dictKeys d).Nodup) : (dictKeys (dictSet d k v)).Nodup := by
  rw [dictKeys_dictSet]
  by_cases hm : k ∈ dictKeys d
  · simpa [hm] using h
  · simp only [hm, if_false]
    rw [List.nodup_append]
    exact ⟨h, List.nodup_singleton k, by simpa using hm⟩

theorem dictLookup_isSome_iff (d : FeatureSet F) (k : F) :
    (dictLookup d k).isSome = true ↔ k ∈ dictKeys d := by
  induction d with
  | nil => simp [dictLookup, dictKeys]
  | cons p rest ih =>
    have hcons : dictKeys (p :: rest) = p.1 :: dictKeys rest := rfl
    rw [hcons]
    by_cases h : p.1 = k
    · simp [dictLookup, h]
    · have h' : ¬ (k = p.1) := fun hh => h hh.symm
      simp [dictLookup, h, h', ih]

theorem dictLookup_eq_none_of_not_mem (d : FeatureSet F) (k : F)
    (h : k ∉ dictKeys d) : dictLookup d k = none := by
  cases hl : dictLookup d k with
  | none => rfl
  | some t =>
    exact absurd ((dictLookup_isSome_iff d k).mp (by simp [hl])) h

theorem dictLookup_addLoc (d : FeatureSet F) (k : F) (a : Addr) (k' : F) :
    dictLookup (addLoc d k a) k' =
      if k = k' then some (insert a ((dictLookup d k).getD ∅))
      else dictLookup d k' := by
  simp [addLoc, dictLookup_dictSet]

theorem dictLookup_ensureKey (d : FeatureSet F) (k : F) (k' : F) :
    dictLookup (ensureKey d k) k' =
      if k = k' then some ((dictLookup d k).getD ∅) else dictLookup d k' := by
  unfold ensureKey
  cases hl : dictLookup d k with
  | some t =>
    by_cases h : k = k'
    · subst h; simp [hl]
    · simp [h]
  | none => simp [dictLookup_dictSet, hl]

theorem dictLookup_streamStep (d : FeatureSet F) (p : F × Addr) (k' : F) :
    dictLookup (streamStep d p) k' =
      if p.1 = k' then
        some ((dictLookup d p.1).getD ∅ ∪ (if p.2.truthy then {p.2} else ∅))
      else dictLookup d k' := by
  unfold streamStep
  by_cases h : p.2.truthy
  · simp [h, dictLookup_addLoc, Finset.union_comm, Finset.insert_eq]
  · simp [h, dictLookup_ensureKey]

theorem dictKeys_streamStep_mem (d : FeatureSet F) (p : F × Addr) (k : F) :
    k ∈ dictKeys (streamStep d p) ↔ p.1 = k ∨ k ∈ dictKeys d := by
  rw [← dictLookup_isSome_iff, ← dictLookup_isSome_iff, dictLookup_streamStep]
  by_cases h : p.1 = k <;> simp [h]

theorem dictKeys_nodup_streamStep (d : FeatureSet F) (p : F × Addr)
    (h : (dictKeys d).Nodup) : (dictKeys (streamStep d p)).Nodup := by
  unfold streamStep addLoc ensureKey
  split
  · exact dictKeys_nodup_dictSet _ _ _ h
  · cases dictLookup d p.1 with
    | some t => exact h
    | none => exact dictKeys_nodup_dictSet _ _ _ h

theorem truthyLocs_nil (k : F) : truthyLocs ([] : List (F × Addr)) k = ∅ := rfl

theorem truthyLocs_cons (p : F × Addr) (s : List (F × Addr)) (k : F) :
    truthyLocs (p :: s) k =
      (if p.1 = k ∧ p.2.truthy = true then {p.2} else ∅) ∪ truthyLocs s k := by
  unfold truthyLocs
  by_cases h1 : p.1 = k <;> by_cases h2 : p.2.truthy <;>
    simp [h1, h2, List.filter_cons, Finset.insert_eq]

theorem truthyLocs_append (s t : List (F × Addr)) (k : F) :
    truthyLocs (s ++ t) k = truthyLocs s k ∪ truthyLocs t k := by
  induction s with
  | nil => simp [truthyLocs_nil]
  | cons p rest ih =>
    rw [List.cons_append, truthyLocs_cons, truthyLocs_cons, ih, Finset.union_assoc]

theorem dictLookup_consume (s : List (F × Addr)) (d : FeatureSet F) (k : F) :
    dictLookup (consume d s) k =
      if k ∈ s.map Prod.fst ∨ k ∈ dictKeys d
      then some ((dictLookup d k).getD ∅ ∪ truthyLocs s k)
      else none := by
  induction s generalizing d with
  | nil =>
    cases hl : dictLookup d k with
    | none =>
      have hm : k ∉ dictKeys d := by
        rw [← dictLookup_isSome_iff]; simp [hl]
      simp [consume, hl, hm]
    | some t =>
      have hm : k ∈ dictKeys d := (dictLookup_isSome_iff d k).mp (by simp [hl])
      simp [consume, hl, hm, truthyLocs_nil]
  | cons p rest ih =>
    have hstep : consume d (p :: rest) = consume (streamStep d p) rest := rfl
    rw [hstep, ih, truthyLocs_cons]
    by_cases hk : p.1 = k
    · subst hk
      have hmem : p.1 ∈ dictKeys (streamStep d p) := by
        rw [dictKeys_streamStep_mem]; exact Or.inl rfl
      by_cases ht : p.2.truthy <;>
        simp [dictLookup_streamStep, hmem, ht, Finset.union_assoc]
    · have h' : ¬ (k = p.1) := fun hh => hk hh.symm
      have hlook : dictLookup (streamStep d p) k = dictLookup d k := by
        rw [dictLookup_streamStep]; simp [hk]
      have hmem : k ∈ dictKeys (streamStep d p) ↔ k ∈ dictKeys d := by
        rw [dictKeys_streamStep_mem]; simp [hk]
      simp only [hlook, hmem, hk, h', List.map_cons, List.mem_cons,
        false_or, truthyLocs_cons]
      simp [h']

theorem dictKeys_nodup_consume (s : List (F × Addr)) (d : FeatureSet F)
    (h : (dictKeys d).Nodup) : (dictKeys (consume d s)).Nodup := by
  induction s generalizing d with
  | nil => exact h
  | cons p rest ih => exact ih _ (dictKeys_nodup_streamStep d p h)

theorem dictUpdate_cons (d : FeatureSet F) (p : F × Finset Addr)
    (rest : FeatureSet F) :
    dictUpdate d (p :: rest) = dictUpdate (dictSet d p.1 p.2) rest := rfl

theorem dictLookup_dictUpdate_congr (e d₁ d₂ : FeatureSet F) (k : F)
    (h : dictLookup d₁ k = dictLookup d₂ k) :
    dictLookup (dictUpdate d₁ e) k = dictLookup (dictUpdate d₂ e) k := by
  induction e generalizing d₁ d₂ with
  | nil => exact h
  | cons p rest ih =>
    rw [dictUpdate_cons, dictUpdate_cons]
    exact ih _ _ (by rw [dictLookup_dictSet, dictLookup_dictSet, h])

theorem dictLookup_dictUpdate_not_mem (e d : FeatureSet F) (k : F)
    (hk : k ∉ dictKeys e) :
    dictLookup (dictUpdate d e) k = dictLookup d k := by
  induction e generalizing d with
  | nil => rfl
  | cons p rest ih =>
    have hcons : dictKeys (p :: rest) = p.1 :: dictKeys rest := rfl
    rw [hcons] at hk
    have h1 : p.1 ≠ k := fun hh => hk (hh ▸ List.mem_cons_self _ _)
    have h2 : k ∉ dictKeys rest := fun hh => hk (List.mem_cons_of_mem _ hh)
    rw [dictUpdate_cons, ih _ h2, dictLookup_dictSet]
    simp [h1]

theorem dictLookup_dictUpdate (e d : FeatureSet F)
    (he : (dictKeys e).Nodup) (k : F) :
    dictLookup (dictUpdate d e) k =
      match dictLookup e k with
      | some v => some v
      | none => dictLookup d k := by
  induction e generalizing d with
  | nil => rfl
  | cons p rest ih =>
    have hcons : dictKeys (p :: rest) = p.1 :: dictKeys rest := rfl
    rw [hcons, List.nodup_cons] at he
    rw [dictUpdate_cons, ih _ he.2]
    by_cases h : p.1 = k
    · subst h
      have hnone : dictLookup rest p.1 = none :=
        dictLookup_eq_none_of_not_mem rest p.1 he.1
      simp [hnone, dictLookup, dictLookup_dictSet]
    · cases hr : dictLookup rest k <;> simp [dictLookup, h, hr, dictLookup_dictSet]

theorem dictKeys_dictUpdate_mem (e d : FeatureSet F) (k : F) :
    k ∈ dictKeys (dictUpdate d e) ↔ k ∈ dictKeys d ∨ k ∈ dictKeys e := by
  induction e generalizing d with
  | nil => simp [dictUpdate, dictKeys]
  | cons p rest ih =>
    have hcons : dictKeys (p :: rest) = p.1 :: dictKeys rest := rfl
    rw [dictUpdate_cons, ih, dictKeys_dictSet_mem, hcons]
    constructor
    · rintro ((h | h) | h)
      · exact Or.inl h
      · exact Or.inr (h ▸ List.mem_cons_self _ _)
      · exact Or.inr (List.mem_cons_of_mem _ h)
    · rintro (h | h)
      · exact Or.inl (Or.inl h)
      · rcases List.mem_cons.mp h with h | h
        · exact Or.inl (Or.inr h)
        · exact Or.inr h

theorem dictKeys_nodup_dictUpdate (e d : FeatureSet F)
    (h : (dictKeys d).Nodup) : (dictKeys (dictUpdate d e)).Nodup := by
  induction e generalizing d with
  | nil => exact h
  | cons p rest ih =>
    rw [dictUpdate_cons]
    exact ih _ (dictKeys_nodup_dictSet _ _ _ h)

theorem truthyLocs_eq_empty (s : List (F × Addr)) (k : F)
    (h : ∀ a : Addr, (k, a) ∈ s → a.truthy = false) : truthyLocs s k = ∅ := by
  induction s with
  | nil => rfl
  | cons p rest ih =>
    rw [truthyLocs_cons, ih (fun a ha => h a (List.mem_cons_of_mem _ ha))]
    have hcond : ¬ (p.1 = k ∧ p.2.truthy = true) := by
      rintro ⟨h1, h2⟩
      have hp : (k, p.2) = p := by rw [← h1]
      have := h p.2 (hp ▸ List.mem_cons_self p rest)
      rw [this] at h2
      exact Bool.false_ne_true h2
    simp [hcond]

theorem has_limitation_found_iff {ρ : Type} (getMatches : ρ → MatchResults)
    (rules : List Rule) (capabilities : ρ) (is_standalone : Bool) :
    (has_limitation getMatches rules capabilities is_standalone).found = true ↔
      ∃ r ∈ rules, r.name ∈ matchKeys (getMatches capabilities) := by
  induction rules with
  | nil => simp [has_limitation]
  | cons r rest ih =>
    by_cases h : r.name ∈ matchKeys (getMatches capabilities)
    · simp [has_limitation, h]
    · simp [has_limitation, h, ih]

theorem has_limitation_append_skip {ρ : Type} (getMatches : ρ → MatchResults)
    (capabilities : ρ) (is_standalone : Bool) (l₁ : List Rule) (r : Rule)
    (l₂ : List Rule)
    (hskip : ∀ r' ∈ l₁, r'.name ∉ matchKeys (getMatches capabilities))
    (hr : r.name ∈ matchKeys (getMatches capabilities)) :
    has_limitation getMatches (l₁ ++ r :: l₂) capabilities is_standalone =
      ⟨true, logLines r is_standalone, capabilities⟩ := by
  induction l₁ with
  | nil => simp [has_limitation, hr]
  | cons r' t ih =>
    have h1 : r'.name ∉ matchKeys (getMatches capabilities) :=
      hskip r' (List.mem_cons_self _ _)
    have h2 : ∀ r'' ∈ t, r''.name ∉ matchKeys (getMatches capabilities) :=
      fun r'' hmem => hskip r'' (List.mem_cons_of_mem _ hmem)
    rw [List.cons_append]
    simp [has_limitation, h1, ih h2]

theorem has_limitation_capabilities_eq {ρ : Type} (getMatches : ρ → MatchResults)
    (rules : List Rule) (capabilities : ρ) (is_standalone : Bool) :
    (has_limitation getMatches rules capabilities is_standalone).capabilities =
      capabilities := by
  induction rules with
  | nil => rfl
  | cons r rest ih =>
    by_cases h : r.name ∈ matchKeys (getMatches capabilities) <;>
      simp [has_limitation, h, ih]

/-! Claim theorems. -/

/-- C1 (counterexample): the claim that `find_file_capabilities` merges the
function-scope index by union — so that the resulting location set of a
shared feature is the union of the two operands' sets and never shrinks —
is false: `file_features.update(function_features)` overwrites.  With the
file stream observing feature `0` at address `1` and the function-scope
index carrying feature `0` with an empty location set, the merged index
(returned unchanged by an identity matcher in `features`) maps feature
`0` to `∅`, not to the union `{1} ∪ ∅ = {1}`, and the set shrank from
`{1}` to `∅`. -/
theorem find_file_capabilities_merge_overwrites :
    dictLookup
        (find_file_capabilities (fun _ fs _ => (fs, []))
          [((0 : ℕ), Addr.va 1)] [] [((0 : ℕ), (∅ : Finset Addr))]).features 0
      = some ∅ ∧
    dictLookup (consume ([] : FeatureSet ℕ) ([((0 : ℕ), Addr.va 1)] ++ [])) 0
      = some {Addr.va 1} ∧
    dictLookup [((0 : ℕ), (∅ : Finset Addr))] 0 = some ∅ ∧
    some (∅ : Finset Addr) ≠ some ({Addr.va 1} ∪ (∅ : Finset Addr)) ∧
    ¬ ({Addr.va 1} : Finset Addr) ⊆ (∅ : Finset Addr) := by
  refine ⟨?_, ?_, ?_, ?_, ?_⟩ <;> decide

/-- C1 (amended): merging the pre-built function-scope index into the
file+global index built by `find_file_capabilities` follows Python
`dict.update` semantics, not union: every feature key present in the
function-scope index ends up with exactly the function-scope location
set (replacing any streamed locations), and every other feature keeps
its streamed location set — so a shared feature's location set can
shrink across the merge. -/
theorem file_feature_index_update_semantics
    (ex_file ex_global : List (F × Addr)) (function_features : FeatureSet F)
    (he : (dictKeys function_features).Nodup) (f : F) :
    dictLookup (file_feature_index ex_file ex_global function_features) f =
      match dictLookup function_features f with
      | some v => some v
      | none => dictLookup (consume [] (ex_file ++ ex_global)) f := by
  unfold file_feature_index
  exact dictLookup_dictUpdate _ _ he f

/-- C1 (amended, witness): the amended statement evaluated at the
counterexample input: feature `0` is shared, so its merged location set
is the function-scope set `∅`. -/
theorem file_feature_index_update_semantics_witness :
    ((dictKeys [((0 : ℕ), (∅ : Finset Addr))]).Nodup) ∧
    dictLookup
        (file_feature_index [((0 : ℕ), Addr.va 1)] [] [((0 : ℕ), (∅ : Finset Addr))]) 0 =
      match dictLookup [((0 : ℕ), (∅ : Finset Addr))] 0 with
      | some v => some v
      | none => dictLookup (consume ([] : FeatureSet ℕ) ([((0 : ℕ), Addr.va 1)] ++ [])) 0 :=
  ⟨by decide, file_feature_index_update_semantics _ _ _ (by decide) 0⟩

/-- C2: consuming the two extraction streams in either order
(`A` then `B`, or `B` then `A`) before merging the function-scope index
yields the same final feature-to-location-set mapping. -/
theorem file_feature_index_comm
    (A B : List (F × Addr)) (function_features : FeatureSet F) (f : F) :
    dictLookup (file_feature_index A B function_features) f =
      dictLookup (file_feature_index B A function_features) f := by
  unfold file_feature_index
  apply dictLookup_dictUpdate_congr
  rw [dictLookup_consume, dictLookup_consume]
  have h1 : truthyLocs (A ++ B) f = truthyLocs (B ++ A) f := by
    rw [truthyLocs_append, truthyLocs_append, Finset.union_comm]
  have h2 : (f ∈ (A ++ B).map Prod.fst ∨ f ∈ dictKeys ([] : FeatureSet F)) ↔
      (f ∈ (B ++ A).map Prod.fst ∨ f ∈ dictKeys ([] : FeatureSet F)) := by
    simp [List.mem_append, or_comm]
  rw [h1]
  exact if_congr h2 rfl rfl

/-- C3: `find_capabilities` routes an extractor presenting exactly one of
the two modes to the matching strategy (static to static resolution,
dynamic to dynamic resolution), and for an extractor presenting neither
mode it fails with the `UnsupportedExtractorKind` error (the raised
`ValueError`) and produces no capability report. -/
theorem find_capabilities_dispatch {C : Type}
    (find_static_capabilities find_dynamic_capabilities : C)
    (extractor : ExtractorTag) :
    (extractor.isStatic = true → extractor.isDynamic = false →
      find_capabilities find_static_capabilities find_dynamic_capabilities extractor =
        .ok find_static_capabilities) ∧
    (extractor.isStatic = false → extractor.isDynamic = true →
      find_capabilities find_static_capabilities find_dynamic_capabilities extractor =
        .ok find_dynamic_capabilities) ∧
    (extractor.isStatic = false → extractor.isDynamic = false →
      find_capabilities find_static_capabilities find_dynamic_capabilities extractor =
        .error (.unsupportedExtractorKind extractor.className) ∧
      ∀ c : C, find_capabilities find_static_capabilities find_dynamic_capabilities
          extractor ≠ .ok c) := by
  refine ⟨?_, ?_, ?_⟩ <;> intro h1 h2 <;> simp [find_capabilities, h1, h2]

/-- C3 (witness): a static-only extractor resolves statically, a
dynamic-only one dynamically, and one that is neither raises
`UnsupportedExtractorKind`. -/
theorem find_capabilities_dispatch_witness :
    find_capabilities (0 : ℕ) 1 ⟨true, false, "StaticExtractor"⟩ = .ok 0 ∧
    find_capabilities (0 : ℕ) 1 ⟨false, true, "DynamicExtractor"⟩ = .ok 1 ∧
    find_capabilities (0 : ℕ) 1 ⟨false, false, "Obj"⟩ =
      .error (.unsupportedExtractorKind "Obj") :=
  ⟨(find_capabilities_dispatch 0 1 _).1 rfl rfl,
   (find_capabilities_dispatch 0 1 _).2.1 rfl rfl,
   ((find_capabilities_dispatch 0 1 _).2.2 rfl rfl).1⟩

/-- C4: `has_limitation` returns `True` iff some rule in the list has its
name among the report's match keys, and the rule it surfaces (whose
description and name it logs) is exactly the first such rule in
iteration order, never a later one; with no matching rule it returns
`False`. -/
theorem has_limitation_first_match {ρ : Type} (getMatches : ρ → MatchResults)
    (rules : List Rule) (capabilities : ρ) (is_standalone : Bool) :
    ((has_limitation getMatches rules capabilities is_standalone).found = true ↔
      ∃ r ∈ rules, r.name ∈ matchKeys (getMatches capabilities)) ∧
    (∀ (l₁ : List Rule) (r : Rule) (l₂ : List Rule),
      rules = l₁ ++ r :: l₂ →
      (∀ r' ∈ l₁, r'.name ∉ matchKeys (getMatches capabilities)) →
      r.name ∈ matchKeys (getMatches capabilities) →
      has_limitation getMatches rules capabilities is_standalone =
        ⟨true, logLines r is_standalone, capabilities⟩) := by
  constructor
  · exact has_limitation_found_iff getMatches rules capabilities is_standalone
  · rintro l₁ r l₂ rfl hskip hr
    exact has_limitation_append_skip getMatches capabilities is_standalone l₁ r l₂ hskip hr

/-- C4 (witness): with two limitation rules `L1`, `L2` in order and a
report matching both, the gate returns `True` and surfaces `L1` only. -/
theorem has_limitation_first_match_witness :
    has_limitation (fun m : MatchResults => m)
        [⟨"L1", []⟩, ⟨"L2", []⟩] [("L1", []), ("L2", [])] true =
      ⟨true, logLines ⟨"L1", []⟩ true, [("L1", []), ("L2", [])]⟩ :=
  (has_limitation_first_match (fun m : MatchResults => m) [⟨"L1", []⟩, ⟨"L2", []⟩]
      [("L1", []), ("L2", [])] true).2 [] ⟨"L1", []⟩ [⟨"L2", []⟩] rfl
      (by simp) (by simp [matchKeys])

/-- C6: a rule is selected as a static limitation rule iff its namespace
metadata is exactly the string `internal/limitation/static`, and as a
dynamic limitation rule iff it is exactly `internal/limitation/dynamic`;
the two sentinels are distinct, and membership is by exact string
equality — a namespace that merely extends a sentinel is not selected. -/
theorem limitation_rule_predicates (r : Rule) :
    (is_static_limitation_rule r = true ↔
      metaGet r.meta "namespace" "" = "internal/limitation/static") ∧
    (is_dynamic_limitation_rule r = true ↔
      metaGet r.meta "namespace" "" = "internal/limitation/dynamic") ∧
    ("internal/limitation/static" : String) ≠ "internal/limitation/dynamic" ∧
    (∀ s : String, s ≠ "" →
      metaGet r.meta "namespace" "" = "internal/limitation/static" ++ s →
      is_static_limitation_rule r = false) ∧
    (∀ s : String, s ≠ "" →
      metaGet r.meta "namespace" "" = "internal/limitation/dynamic" ++ s →
      is_dynamic_limitation_rule r = false) := by
  have happ : ∀ (a b : String), a ++ b = a → b = "" := by
    intro a b h
    have hd : a.data ++ b.data = a.data ++ [] := by
      have := congrArg String.data h
      simpa [String.data_append] using this
    have hnil : b.data = [] := List.append_cancel_left hd
    cases b
    simp_all
  refine ⟨?_, ?_, by decide, ?_, ?_⟩
  · simp [is_static_limitation_rule, beq_iff_eq]
  · simp [is_dynamic_limitation_rule, beq_iff_eq]
  · intro s hs hns
    rw [is_static_limitation_rule, hns]
    cases hb : ("internal/limitation/static" ++ s == "internal/limitation/static") with
    | false => rfl
    | true => exact absurd (happ _ _ (beq_iff_eq.mp hb)) hs
  · intro s hs hns
    rw [is_dynamic_limitation_rule, hns]
    cases hb : ("internal/limitation/dynamic" ++ s == "internal/limitation/dynamic") with
    | false => rfl
    | true => exact absurd (happ _ _ (beq_iff_eq.mp hb)) hs

/-- C6 (witness): a rule whose namespace is exactly the static sentinel
is selected; one whose namespace strictly extends the sentinel is not. -/
theorem limitation_rule_predicates_witness :
    is_static_limitation_rule ⟨"r", [("namespace", "internal/limitation/static")]⟩ = true ∧
    is_static_limitation_rule ⟨"r", [("namespace", "internal/limitation/static/extra")]⟩ = false :=
  ⟨(limitation_rule_predicates _).1.mpr (by decide),
   (limitation_rule_predicates _).2.2.2.1 "/extra" (by decide) (by decide)⟩

/-- C5: a feature supplied with no location always appears as a key of
the index built by `find_file_capabilities`; if it was never otherwise
observed with a (truthy) location and is not a key of the function-scope
index, its location set is empty; and consuming a location-less
occurrence never removes or disturbs locations already recorded for the
feature. -/
theorem addressless_presence
    (ex_file ex_global : List (F × Addr)) (function_features : FeatureSet F)
    (f : F) :
    ((f, Addr.noAddr) ∈ ex_file ++ ex_global →
      f ∈ dictKeys (file_feature_index ex_file ex_global function_features)) ∧
    ((f, Addr.noAddr) ∈ ex_file ++ ex_global →
      (∀ a : Addr, (f, a) ∈ ex_file ++ ex_global → a.truthy = false) →
      f ∉ dictKeys function_features →
      dictLookup (file_feature_index ex_file ex_global function_features) f =
        some ∅) ∧
    (∀ (d : FeatureSet F) (t : Finset Addr), dictLookup d f = some t →
      dictLookup (streamStep d (f, Addr.noAddr)) f = some t) := by
  refine ⟨?_, ?_, ?_⟩
  · intro hmem
    rw [file_feature_index, dictKeys_dictUpdate_mem]
    left
    rw [← dictLookup_isSome_iff, dictLookup_consume]
    have hm : f ∈ (ex_file ++ ex_global).map Prod.fst :=
      List.mem_map_of_mem Prod.fst hmem
    rw [if_pos (Or.inl hm)]
    rfl
  · intro hmem hfalsy hnotfn
    rw [file_feature_index, dictLookup_dictUpdate_not_mem _ _ _ hnotfn,
      dictLookup_consume]
    have hm : f ∈ (ex_file ++ ex_global).map Prod.fst :=
      List.mem_map_of_mem Prod.fst hmem
    rw [if_pos (Or.inl hm), truthyLocs_eq_empty _ _ hfalsy]
    simp [dictLookup]
  · intro d t ht
    rw [dictLookup_streamStep]
    simp [ht, Addr.truthy]

/-- C5 (witness): with the single stream pair `(0, NO_ADDRESS)` and an
empty function-scope index, feature `0` is a key of the index and has an
empty location set; and a location-less occurrence of feature `0` leaves
an index that already maps `0` to `{1}` unchanged. -/
theorem addressless_presence_witness :
    (0 : ℕ) ∈ dictKeys (file_feature_index [((0 : ℕ), Addr.noAddr)] [] []) ∧
    dictLookup (file_feature_index [((0 : ℕ), Addr.noAddr)] [] []) 0 = some ∅ ∧
    dictLookup
        (streamStep [((0 : ℕ), ({Addr.va 1} : Finset Addr))] (0, Addr.noAddr)) 0 =
      some {Addr.va 1} :=
  ⟨(addressless_presence [((0 : ℕ), Addr.noAddr)] [] [] 0).1 (by decide),
   (addressless_presence [((0 : ℕ), Addr.noAddr)] [] [] 0).2.1 (by decide)
     (by intro a ha; simp at ha; subst ha; rfl) (by decide),
   (addressless_presence [((0 : ℕ), Addr.noAddr)] [] [] 0).2.2
     [((0 : ℕ), ({Addr.va 1} : Finset Addr))] {Addr.va 1} (by decide)⟩

/-- C7: an error raised by either extraction call propagates unchanged
out of `find_file_capabilities`, and a `FileCapabilities` result (even a
partial one) exists only when both extraction calls succeeded, in which
case it is the full resolution of the two streams — there is no retry
and no local recovery. -/
theorem extraction_error_propagation {E : Type}
    (matchFn : Scope → FeatureSet F → Addr → FeatureSet F × MatchResults)
    (extractor : FileExtractor F E) (function_features : FeatureSet F)
    (err : E) :
    (extractor.extract_file_features = .error err →
      find_file_capabilities_exc matchFn extractor function_features =
        .error err) ∧
    (∀ fileS, extractor.extract_file_features = .ok fileS →
      extractor.extract_global_features = .error err →
      find_file_capabilities_exc matchFn extractor function_features =
        .error err) ∧
    (∀ result,
      find_file_capabilities_exc matchFn extractor function_features =
        .ok result →
      ∃ fileS globalS,
        extractor.extract_file_features = .ok fileS ∧
        extractor.extract_global_features = .ok globalS ∧
        result = find_file_capabilities matchFn fileS globalS function_features) := by
  refine ⟨?_, ?_, ?_⟩
  · intro h
    simp [find_file_capabilities_exc, h]
  · intro fileS h1 h2
    simp [find_file_capabilities_exc, h1, h2]
  · intro result h
    unfold find_file_capabilities_exc at h
    cases hf : extractor.extract_file_features with
    | error e => rw [hf] at h; cases h
    | ok fileS =>
      rw [hf] at h
      cases hg : extractor.extract_global_features with
      | error e => rw [hg] at h; cases h
      | ok globalS =>
        rw [hg] at h
        injection h with h'
        exact ⟨fileS, globalS, rfl, rfl, h'.symm⟩

/-- C7 (witness): a failing file-feature extraction propagates its error,
a failing global-feature extraction propagates its error, and a
successful run produces the resolved report. -/
theorem extraction_error_propagation_witness :
    find_file_capabilities_exc (fun _ (fs : FeatureSet ℕ) _ => (fs, []))
        ⟨Except.error "boom", Except.ok []⟩ [] = Except.error "boom" ∧
    find_file_capabilities_exc (fun _ (fs : FeatureSet ℕ) _ => (fs, []))
        ⟨Except.ok [], Except.error "boom"⟩ [] = Except.error "boom" :=
  ⟨(extraction_error_propagation (fun _ (fs : FeatureSet ℕ) _ => (fs, []))
      ⟨Except.error "boom", Except.ok []⟩ [] "boom").1 rfl,
   (extraction_error_propagation (fun _ (fs : FeatureSet ℕ) _ => (fs, []))
      ⟨Except.ok [], Except.error "boom"⟩ [] "boom").2.1 [] rfl rfl⟩

/-- C8: `find_file_capabilities` evaluates the file-scope rules exactly
once, against the fully merged evidence index (file + global +
function-scope), anchored at the `NO_ADDRESS` sentinel; the returned
`FileCapabilities` carries that one matcher call's evidence index and
match results together with a feature count equal to the number of
distinct feature keys of the merged index. -/
theorem file_capabilities_single_match
    (matchFn : Scope → FeatureSet F → Addr → FeatureSet F × MatchResults)
    (ex_file ex_global : List (F × Addr)) (function_features : FeatureSet F) :
    find_file_capabilities matchFn ex_file ex_global function_features =
      { features :=
          (matchFn Scope.FILE (file_feature_index ex_file ex_global function_features)
            Addr.noAddr).1,
        rule_matches :=
          (matchFn Scope.FILE (file_feature_index ex_file ex_global function_features)
            Addr.noAddr).2,
        feature_count :=
          ((dictKeys (file_feature_index ex_file ex_global function_features)).dedup).length } := by
  have hnodup :
      (dictKeys (file_feature_index ex_file ex_global function_features)).Nodup :=
    dictKeys_nodup_dictUpdate _ _ (dictKeys_nodup_consume _ _ (by simp [dictKeys]))
  rw [find_file_capabilities, FileCapabilities.mk.injEq]
  refine ⟨rfl, rfl, ?_⟩
  rw [List.Nodup.dedup hnodup]
  simp [dictKeys]

/-- C9: the limitation gate is a read-only inspection: `has_limitation`
and its wrappers `has_static_limitation` and `has_dynamic_limitation`
return the capabilities object exactly as it was received, whether or
not a limitation is found — in particular a `Capabilities` or
`FileCapabilities` report keeps its matches, feature counts and
auxiliary classification fields. -/
theorem limitation_gate_read_only {ρ : Type} (getMatches : ρ → MatchResults)
    (rules : List Rule) (capabilities : ρ) (is_standalone : Bool)
    {FC : Type} (report : Capabilities FC) (fileReport : FileCapabilities F) :
    (has_limitation getMatches rules capabilities is_standalone).capabilities =
      capabilities ∧
    (has_static_limitation getMatches rules capabilities is_standalone).capabilities =
      capabilities ∧
    (has_dynamic_limitation getMatches rules capabilities is_standalone).capabilities =
      capabilities ∧
    (has_limitation (fun c : Capabilities FC => c.rule_matches) rules report
        is_standalone).capabilities = report ∧
    (has_limitation (fun c : FileCapabilities F => c.rule_matches) rules fileReport
        is_standalone).capabilities = fileReport :=
  ⟨has_limitation_capabilities_eq _ _ _ _,
   has_limitation_capabilities_eq _ _ _ _,
   has_limitation_capabilities_eq _ _ _ _,
   has_limitation_capabilities_eq _ _ _ _,
   has_limitation_capabilities_eq _ _ _ _⟩

/-- C10: a stream pair whose location is falsy — the integer address `0`
just like the `NO_ADDRESS` sentinel — takes the no-location branch of
`find_file_capabilities`: the location is discarded, and the feature is
recorded with an empty location set unless some other occurrence
supplies a truthy location. -/
theorem falsy_address_discarded (d : FeatureSet F) (f : F) :
    (Addr.truthy (Addr.va 0) = false ∧ Addr.truthy Addr.noAddr = false) ∧
    streamStep d (f, Addr.va 0) = ensureKey d f ∧
    (∀ s : List (F × Addr), (f, Addr.va 0) ∈ s →
      f ∈ dictKeys (consume ([] : FeatureSet F) s)) ∧
    (∀ s : List (F × Addr), (f, Addr.va 0) ∈ s →
      (∀ a : Addr, (f, a) ∈ s → a.truthy = false) →
      dictLookup (consume ([] : FeatureSet F) s) f = some ∅) := by
  refine ⟨⟨rfl, rfl⟩, ?_, ?_, ?_⟩
  · simp [streamStep, Addr.truthy]
  · intro s hmem
    rw [← dictLookup_isSome_iff, dictLookup_consume]
    have : f ∈ s.map Prod.fst := List.mem_map_of_mem Prod.fst hmem
    simp [this]
  · intro s hmem hfalsy
    rw [dictLookup_consume]
    have hm : f ∈ s.map Prod.fst := List.mem_map_of_mem Prod.fst hmem
    simp [hm, truthyLocs_eq_empty _ _ hfalsy, dictLookup]

/-- C10 (witness): the stream pair `(0, va 0)` alone yields feature `0`
with an empty location set. -/
theorem falsy_address_discarded_witness :
    (0 : ℕ) ∈ dictKeys (consume ([] : FeatureSet ℕ) [(0, Addr.va 0)]) ∧
    dictLookup (consume ([] : FeatureSet ℕ) [(0, Addr.va 0)]) 0 = some ∅ :=
  ⟨(falsy_address_discarded ([] : FeatureSet ℕ) 0).2.2.1 [(0, Addr.va 0)] (by decide),
   (falsy_address_discarded ([] : FeatureSet ℕ) 0).2.2.2 [(0, Addr.va 0)]
     (by decide) (by intro a ha; simp at ha; subst ha; rfl)⟩

end Capa
